import Mathlib

set_option maxRecDepth 100000

/-!
Verification development for the staff-directory crawler
(`staff_crawler.py`, `models.py`).  The Python functions relevant to the
claims are shallowly embedded as executable Lean definitions: regular
expressions are embedded as explicit character-list scanners that follow
the leftmost, greedy-with-backtracking semantics of Python `re` on the
concrete patterns used by the source, and the stdlib helpers the source
calls (`urllib.parse`, `json.loads`) are embedded at the fidelity the
call sites exercise.
-/

/-- Characters Python `str.strip()` removes (ASCII whitespace). -/
def isPyWs (c : Char) : Bool :=
  c = ' ' || c = '\t' || c = '\n' || c = '\x0d' || c = '\x0b' || c = '\x0c'

/-- Embedding of Python `str.strip()`. -/
def pyStrip (s : String) : String :=
  ⟨((s.data.dropWhile isPyWs).reverse.dropWhile isPyWs).reverse⟩

/-- Embedding of `str.lower()` (ASCII range, the range the email and URL
patterns admit). -/
def pyLower (s : String) : String := ⟨s.data.map Char.toLower⟩

/-- Embedding of `str.startswith` (kernel-reducible). -/
def pyStartsWith (s pre : String) : Bool := pre.data.isPrefixOf s.data

/-- Embedding of `c in s` for a single character. -/
def strHasChar (s : String) (c : Char) : Bool := s.data.contains c

/-- Fueled embedding of `str.replace` (non-overlapping, left to right). -/
def pyReplaceAux : Nat → List Char → List Char → List Char → List Char
  | 0, _, _, l => l
  | _ + 1, _, _, [] => []
  | fuel + 1, pat, sub, c :: cs =>
    if pat.isPrefixOf (c :: cs) ∧ ¬ pat.isEmpty then
      sub ++ pyReplaceAux fuel pat sub ((c :: cs).drop pat.length)
    else c :: pyReplaceAux fuel pat sub cs

/-- Embedding of `str.replace` on strings. -/
def pyReplace (s pat sub : String) : String :=
  ⟨pyReplaceAux (s.data.length + 1) pat.data sub.data s.data⟩

/-- Split on a single separator character (`str.split(sep)`). -/
def splitCharAux : Char → List Char → List Char → List (List Char)
  | _, accRev, [] => [ accRev.reverse ]
  | sep, accRev, c :: cs =>
    if c = sep then accRev.reverse :: splitCharAux sep [] cs
    else splitCharAux sep (c :: accRev) cs

/-- Split a string on a single separator character. -/
def strSplitChar (sep : Char) (s : String) : List String :=
  (splitCharAux sep [] s.data).map (fun l => (⟨l⟩ : String))

/-- Join strings with a separator (kernel-reducible `intercalate`). -/
def strJoin (sep : String) (l : List String) : String :=
  ⟨((l.map String.data).intersperse sep.data).flatten⟩

/-- Embedding of `email.strip().lower()`, the normalization every
extraction rule applies to a matched email. -/
def normEmail (e : String) : String := pyLower (pyStrip e)

/-- Character class `[a-zA-Z0-9._%+-]` (the local part of the email
pattern used throughout `staff_crawler.py`). -/
def isLocalChar (c : Char) : Bool :=
  c.isAlpha || c.isDigit || c = '.' || c = '_' || c = '%' || c = '+' || c = '-'

/-- Character class `[a-zA-Z0-9.-]` (the domain part of the email pattern). -/
def isDomainChar (c : Char) : Bool :=
  c.isAlpha || c.isDigit || c = '.' || c = '-'

/-- End position inside a maximal `[a-zA-Z0-9.-]` run for the greedy match
of `[a-zA-Z0-9.-]+\.[a-zA-Z]\x7b2,\x7d`: the rightmost dot followed by at
least two letters wins, and the final letter run is greedy. -/
def emailDomEnd (dom : List Char) : Option Nat :=
  match (List.range dom.length).filter
      (fun k => (decide (1 ≤ k)) &&
        (dom.get? k = some '.' : Bool) &&
        (match dom.get? (k+1) with | some c => c.isAlpha | none => false) &&
        (match dom.get? (k+2) with | some c => c.isAlpha | none => false)) |>.getLast? with
  | none => none
  | some k => some (k + 1 + ((dom.drop (k+1)).takeWhile Char.isAlpha).length)

/-- Attempt of the email pattern
`[a-zA-Z0-9._%+-]+@[a-zA-Z0-9.-]+\.[a-zA-Z]\x7b2,\x7d` at the head of the
input, returning the matched characters and the rest. -/
def tryEmailMatch (l : List Char) : Option (List Char × List Char) :=
  match l.span isLocalChar with
  | (loc, r1) =>
    if loc.isEmpty then none
    else
      match r1 with
      | '@' :: r2 =>
        match r2.span isDomainChar with
        | (dom, r3) =>
          match emailDomEnd dom with
          | some e => some (loc ++ '@' :: dom.take e, dom.drop e ++ r3)
          | none => none
      | _ => none

/-- Fueled scan implementing `re.findall(email_pattern, s)`: leftmost
non-overlapping matches, resuming after each match. -/
def emailScan : Nat → List Char → List (List Char)
  | 0, _ => []
  | _ + 1, [] => []
  | fuel + 1, l@(_ :: rest) =>
    match tryEmailMatch l with
    | some (m, r) => m :: emailScan fuel r
    | none => emailScan fuel rest

/-- All email-pattern matches of a string, in scan order. -/
def emailFindall (s : String) : List String :=
  (emailScan (s.data.length + 1) s.data).map (fun cs => (⟨cs⟩ : String))

/-- Number of distinct email-pattern matches, `len(set(re.findall(...)))`. -/
def emailsCount (s : String) : Nat := (emailFindall s).dedup.length

/-- Embedding of `StaffDirectoryCrawler._analyze_content_type`: the content
classifier.  The code-level tag `"llm"` is the spec's `semantic`
classification (the general-extraction fallback). -/
def analyze_content_type (html markdown : String) : String × Nat :=
  let emails_html := emailsCount html
  let emails_md := if markdown = "" then 0 else emailsCount markdown
  if emails_html > 10 ∧ emails_html > emails_md * 3 then ("embedded", emails_html)
  else if emails_md > 5 then ("visible", emails_md)
  else ("llm", max emails_html emails_md)

/-- Record model from `models.py` (`StaffMember`): required name, optional
role and email. -/
structure StaffMember where
  name : String
  role : Option String
  email : Option String
deriving DecidableEq, Repr

/-- Literal matcher: consume `pat` at the head of the input. -/
def matchLit : List Char → List Char → Option (List Char)
  | [], l => some l
  | _ :: _, [] => none
  | p :: ps, c :: cs => if c = p then matchLit ps cs else none

/-- Case-insensitive literal matcher (for patterns compiled with
`re.IGNORECASE`). -/
def matchLitCI : List Char → List Char → Option (List Char)
  | [], l => some l
  | _ :: _, [] => none
  | p :: ps, c :: cs => if c.toLower = p.toLower then matchLitCI ps cs else none

/-- Email followed by a closing double quote, as required at the end of the
aria-label pattern: the letter run after the last dot must reach the end of
the domain run. -/
def emailQuoted (l : List Char) : Option (List Char × List Char) :=
  match l.span isLocalChar with
  | (loc, r1) =>
    if loc.isEmpty then none
    else
      match r1 with
      | '@' :: r2 =>
        match r2.span isDomainChar with
        | (dom, r3) =>
          match r3 with
          | '"' :: r4 =>
            match dom.reverse with
            | [] => none
            | dr =>
              match dr.span Char.isAlpha with
              | (tldRev, restRev) =>
                match restRev with
                | '.' :: preRev =>
                  if 2 ≤ tldRev.length ∧ preRev ≠ [] then
                    some (loc ++ '@' :: dom, r4)
                  else none
                | _ => none
          | _ => none
      | _ => none

/-- Lazy name search of the aria pattern `([^"]+?) at EMAIL"`: the name is
grown one character at a time (shortest first), trying the continuation
after each step. -/
def ariaNameSearch : Nat → List Char → List Char → Option (List Char × List Char × List Char)
  | 0, _, _ => none
  | _ + 1, _, [] => none
  | fuel + 1, accRev, c :: cs =>
    if c = '"' then none
    else
      match matchLit (String.data " at ") cs with
      | some r =>
        match emailQuoted r with
        | some (em, rest) => some ((c :: accRev).reverse, em, rest)
        | none => ariaNameSearch fuel (c :: accRev) cs
      | none => ariaNameSearch fuel (c :: accRev) cs

/-- Attempt of the pattern
`aria-label="[Ss]end [Mm]essage to ([^"]+?) at (EMAIL)"` at the head of
the input. -/
def ariaAttempt (l : List Char) : Option ((List Char × List Char) × List Char) :=
  match matchLit (String.data "aria-label=\"") l with
  | none => none
  | some r1 =>
    match r1 with
    | c :: r2 =>
      if c = 'S' ∨ c = 's' then
        match matchLit (String.data "end ") r2 with
        | none => none
        | some r3 =>
          match r3 with
          | m :: r4 =>
            if m = 'M' ∨ m = 'm' then
              match matchLit (String.data "essage to ") r4 with
              | none => none
              | some r5 =>
                match ariaNameSearch (r5.length + 1) [] r5 with
                | some (name, em, rest) => some ((name, em), rest)
                | none => none
            else none
          | [] => none
      else none
    | [] => none

/-- Scan for all aria-label pattern matches (leftmost, non-overlapping). -/
def ariaScan : Nat → List Char → List (List Char × List Char)
  | 0, _ => []
  | _ + 1, [] => []
  | fuel + 1, l@(_ :: rest) =>
    match ariaAttempt l with
    | some (m, rest') => m :: ariaScan fuel rest'
    | none => ariaScan fuel rest

/-- All `(name, email)` matches of the aria-label rule (pattern 0 of
`_extract_from_html_patterns`). -/
def ariaMatches (html : String) : List (String × String) :=
  (ariaScan (html.data.length + 1) html.data).map
    (fun m => ((⟨m.1⟩ : String), (⟨m.2⟩ : String)))

/-- Character class `[,\s]` of the separator run before a role. -/
def isCommaWs (c : Char) : Bool := c = ',' || isPyWs c

/-- Character class `[^<"\\]` of the role text. -/
def isRoleChar (c : Char) : Bool := !(c = '<' || c = '"' || c = '\\')

/-- Greedy attempt of `[^<"\\]\x7b2,50\x7d` at the head of the input. -/
def roleTry (start : List Char) : Option (List Char × List Char) :=
  let rl := min (start.takeWhile isRoleChar).length 50
  if 2 ≤ rl then some (start.take rl, start.drop rl) else none

/-- Backtracking of the greedy `[,\s]*` before the role group: positions
are tried from rightmost (all separators consumed) to leftmost. -/
def roleSearchAux : List Char → List Char → Option (List Char × List Char)
  | wRev, start =>
    match roleTry start with
    | some res => some res
    | none =>
      match wRev with
      | [] => none
      | c :: wRev' => roleSearchAux wRev' (c :: start)

/-- Attempt of pattern 1 (`mailto:(EMAIL)[^>]*>([^<]+)</a>` with an
optional `(?:[,\s]*([^<"\\]\x7b2,50\x7d))?` role tail) at the head of the
input, yielding `(email, name, role?)` and the rest after the match. -/
def mailtoAttempt (l : List Char) :
    Option ((List Char × List Char × Option (List Char)) × List Char) :=
  match matchLit (String.data "mailto:") l with
  | none => none
  | some r0 =>
    match tryEmailMatch r0 with
    | none => none
    | some (em, r1) =>
      match (r1.span (fun c => c ≠ '>')).2 with
      | '>' :: r3 =>
        match r3.span (fun c => c ≠ '<') with
        | (name, r4) =>
          if name.isEmpty then none
          else
            match matchLit (String.data "</a>") r4 with
            | none => none
            | some r5 =>
              match r5.span isCommaWs with
              | (w, r6) =>
                match roleSearchAux w.reverse r6 with
                | some (role, rest) => some ((em, name, some role), rest)
                | none => some ((em, name, none), r5)
      | _ => none

/-- Scan for all mailto pattern matches (leftmost, non-overlapping). -/
def mailtoScan : Nat → List Char → List (List Char × List Char × Option (List Char))
  | 0, _ => []
  | _ + 1, [] => []
  | fuel + 1, l@(_ :: rest) =>
    match mailtoAttempt l with
    | some (m, rest') => m :: mailtoScan fuel rest'
    | none => mailtoScan fuel rest

/-- All `(email, name, role?)` matches of the mailto rule (pattern 1 of
`_extract_from_html_patterns`). -/
def mailtoMatches (html : String) : List (String × String × Option String) :=
  (mailtoScan (html.data.length + 1) html.data).map
    (fun m => ((⟨m.1⟩ : String), (⟨m.2.1⟩ : String), m.2.2.map (fun r => (⟨r⟩ : String))))

/-- Try the alternation `(?:name|title|displayName)` (case-insensitive) at
the head of the input, alternatives in pattern order. -/
def jsonKeyAlt : List (List Char) → List Char → Option (List Char)
  | [], _ => none
  | k :: ks, l =>
    match matchLitCI k l with
    | some r => some r
    | none => jsonKeyAlt ks l

/-- Tail of the embedded-JSON pattern:
`"(?:name|title|displayName)":\s*"([^"]+)"` (case-insensitive keys). -/
def jsonTailAttempt (l : List Char) : Option (List Char × List Char) :=
  match l with
  | '"' :: s0 =>
    match jsonKeyAlt [String.data "name", String.data "title", String.data "displayName"] s0 with
    | none => none
    | some s1 =>
      match matchLit (String.data "\":") s1 with
      | none => none
      | some s2 =>
        match (s2.dropWhile isPyWs) with
        | '"' :: s4 =>
          match s4.span (fun c => c ≠ '"') with
          | (nm, s5) =>
            if nm.isEmpty then none
            else
              match s5 with
              | '"' :: s6 => some (nm, s6)
              | _ => none
        | _ => none
  | _ => none

/-- Backtracking of the greedy `[^}]*` between the email value and the
name key: start positions are tried from rightmost to leftmost. -/
def jsonTailSearch : List Char → List Char → Option (List Char × List Char)
  | wRev, start =>
    match jsonTailAttempt start with
    | some res => some res
    | none =>
      match wRev with
      | [] => none
      | c :: wRev' => jsonTailSearch wRev' (c :: start)

/-- Attempt of pattern 2
(`"(?:email|mail)":\s*"([^"]+@[^"]+)"[^}]*"(?:name|title|displayName)":\s*"([^"]+)"`,
case-insensitive) at the head of the input, yielding `(email, name)`. -/
def jsonAttempt (l : List Char) : Option ((List Char × List Char) × List Char) :=
  match l with
  | '"' :: r0 =>
    match jsonKeyAlt [String.data "email", String.data "mail"] r0 with
    | none => none
    | some r1 =>
      match matchLit (String.data "\":") r1 with
      | none => none
      | some r2 =>
        match (r2.dropWhile isPyWs) with
        | '"' :: r4 =>
          match r4.span (fun c => c ≠ '"') with
          | (v, r5) =>
            if ('@' ∈ (v.drop 1).dropLast) then
              match r5 with
              | '"' :: r6 =>
                match r6.span (fun c => c ≠ '}') with
                | (w, r7) =>
                  match jsonTailSearch w.reverse r7 with
                  | some (nm, rest) => some ((v, nm), rest)
                  | none => none
              | _ => none
            else none
        | _ => none
  | _ => none

/-- Scan for all embedded-JSON pattern matches (leftmost, non-overlapping). -/
def jsonScan : Nat → List Char → List (List Char × List Char)
  | 0, _ => []
  | _ + 1, [] => []
  | fuel + 1, l@(_ :: rest) =>
    match jsonAttempt l with
    | some (m, rest') => m :: jsonScan fuel rest'
    | none => jsonScan fuel rest

/-- All `(email, name)` matches of the embedded-JSON rule (pattern 2 of
`_extract_from_html_patterns`). -/
def jsonMatches (html : String) : List (String × String) :=
  (jsonScan (html.data.length + 1) html.data).map
    (fun m => ((⟨m.1⟩ : String), (⟨m.2⟩ : String)))

/-- Embedding of `re.sub(r'^(Mr\.|Mrs\.|Ms\.|Dr\.|Prof\.)\s*', '', name)`:
strip one leading honorific (first alternative that matches) and the
whitespace after it. -/
def stripHonorific (s : String) : String :=
  match [ "Mr.", "Mrs.", "Ms.", "Dr.", "Prof." ].find? (fun p => pyStartsWith s p) with
  | some p => ⟨(s.data.drop p.length).dropWhile isPyWs⟩
  | none => s

/-- Generic-mailbox denylist of the mailto rule, checked with
`email.startswith`. -/
def genericPatterns : List String :=
  [ "info@", "contact@", "office@", "admin@", "school@", "support@" ]

/-- Fueled collapse of every whitespace run to a single space
(`re.sub(r'\s+', ' ', role)`). -/
def collapseWsAux : Nat → List Char → List Char
  | 0, _ => []
  | _ + 1, [] => []
  | fuel + 1, c :: cs =>
    if isPyWs c then ' ' :: collapseWsAux fuel (cs.dropWhile isPyWs)
    else c :: collapseWsAux fuel cs

/-- Collapse every whitespace run to a single space. -/
def collapseWs (l : List Char) : List Char := collapseWsAux (l.length + 1) l

/-- Role cleanup of the mailto rule: strip, drop leading `[,\s*-]` and
trailing `[,\s*]` runs, decode the two HTML entities, collapse whitespace,
and drop the role when at most one character remains.  When the captured
role strips to the empty string the cleanup is skipped and the empty
string is kept (the `if role:` truthiness check in the source). -/
def cleanRole : Option String → Option String
  | none => none
  | some r =>
    let r1 := pyStrip r
    if r1 = "" then some ""
    else
      let r2 : List Char := r1.data.dropWhile (fun c => isCommaWs c || c = '*' || c = '-')
      let r3 : List Char := (r2.reverse.dropWhile (fun c => isCommaWs c || c = '*')).reverse
      let r4 := pyReplace (pyReplace (⟨r3⟩ : String) "&amp;" "&") "&nbsp;" " "
      let r5 := pyStrip ⟨collapseWs r4.data⟩
      if r5.length > 1 then some r5 else none

/-- Pass over the aria-label matches (pattern 0 loop of
`_extract_from_html_patterns`), threading the `seen_emails` set. -/
def ariaPass : List (String × String) → List String → List StaffMember × List String
  | [], seen => ([], seen)
  | (name, email) :: rest, seen =>
    if normEmail email ∉ seen ∧ 2 ≤ (pyStrip name).length then
      ((⟨pyStrip name, none, some (normEmail email)⟩ : StaffMember) ::
          (ariaPass rest (normEmail email :: seen)).1,
        (ariaPass rest (normEmail email :: seen)).2)
    else ariaPass rest seen

/-- Pass over the mailto matches (pattern 1 loop): denylist, name-contains-@
filter, dedup (adding to `seen_emails` before the name validation), name
validation after honorific stripping, role cleanup. -/
def mailtoPass : List (String × String × Option String) → List String → List StaffMember × List String
  | [], seen => ([], seen)
  | (email, name, role) :: rest, seen =>
    if genericPatterns.any (fun p => pyStartsWith (normEmail email) p) then mailtoPass rest seen
    else if strHasChar name '@' then mailtoPass rest seen
    else if normEmail email ∈ seen then mailtoPass rest seen
    else if (pyStrip (stripHonorific (pyStrip name))).length < 2 then
      mailtoPass rest (normEmail email :: seen)
    else
      ((⟨pyStrip name, cleanRole role, some (normEmail email)⟩ : StaffMember) ::
          (mailtoPass rest (normEmail email :: seen)).1,
        (mailtoPass rest (normEmail email :: seen)).2)

/-- Pass over the embedded-JSON matches (pattern 2 loop): dedup and @-check
first, then name validation (the email is added to `seen_emails` only when
the member is appended). -/
def jsonPass : List (String × String) → List String → List StaffMember × List String
  | [], seen => ([], seen)
  | (email, name) :: rest, seen =>
    if normEmail email ∉ seen ∧ strHasChar (normEmail email) '@' then
      if 2 ≤ (pyStrip (stripHonorific name)).length then
        ((⟨pyStrip name, none, some (normEmail email)⟩ : StaffMember) ::
            (jsonPass rest (normEmail email :: seen)).1,
          (jsonPass rest (normEmail email :: seen)).2)
      else jsonPass rest seen
    else jsonPass rest seen

/-- Embedding of `StaffDirectoryCrawler._extract_from_html_patterns`: the
three rule passes in priority order over one shared `seen_emails` set. -/
def extract_from_html_patterns (html : String) : List StaffMember :=
  let r0 := ariaPass (ariaMatches html) []
  let r1 := mailtoPass (mailtoMatches html) r0.2
  let r2 := jsonPass (jsonMatches html) r1.2
  r0.1 ++ r1.1 ++ r2.1

/-- Scheme, netloc, path and query of a URL, the components
`urllib.parse.urlparse` yields that the source consumes. -/
structure UrlParts where
  scheme : String
  netloc : String
  path : String
  query : String
deriving DecidableEq, Repr

/-- Valid scheme characters after the first letter. -/
def isSchemeChar (c : Char) : Bool := c.isAlpha || c.isDigit || c = '+' || c = '-' || c = '.'

/-- Embedding of `urllib.parse.urlparse` restricted to the components the
source uses (fragments are split off; params are not modelled). -/
def urlparse (u : String) : UrlParts :=
  let noFrag := (u.data.span (fun c => c ≠ '#')).1
  let schemeSplit : String × List Char :=
    match noFrag.span (fun c => c ≠ ':') with
    | (pre, rest) =>
      match rest with
      | ':' :: r =>
        match pre with
        | c0 :: _ =>
          if c0.isAlpha ∧ pre.all isSchemeChar then (pyLower (⟨pre⟩ : String), r)
          else ("", noFrag)
        | [] => ("", noFrag)
      | _ => ("", noFrag)
  let (netloc, afterNetloc) : String × List Char :=
    match schemeSplit.2 with
    | '/' :: '/' :: r =>
      match r.span (fun c => c ≠ '/' ∧ c ≠ '?') with
      | (nl, r2) => ((⟨nl⟩ : String), r2)
    | r => ("", r)
  match afterNetloc.span (fun c => c ≠ '?') with
  | (path, qrest) =>
    { scheme := schemeSplit.1, netloc := netloc, path := (⟨path⟩ : String),
      query := match qrest with | '?' :: q => (⟨q⟩ : String) | _ => "" }

/-- Whether a URL reference carries its own authority (`//...` after the
optional scheme). -/
def urlHasAuthority (u : String) : Bool :=
  let noFrag := (u.data.span (fun c => c ≠ '#')).1
  let body : List Char :=
    match noFrag.span (fun c => c ≠ ':') with
    | (pre, rest) =>
      match rest with
      | ':' :: r =>
        match pre with
        | c0 :: _ => if c0.isAlpha ∧ pre.all isSchemeChar then r else noFrag
        | [] => noFrag
      | _ => noFrag
  match body with
  | '/' :: '/' :: _ => true
  | _ => false

/-- Resolve `.` and `..` segments of a path (the segment resolution
`urljoin` performs). -/
def resolveSegs : List String → List String → List String
  | acc, [] => acc.reverse
  | acc, s :: rest =>
    if s = "." then
      match rest with
      | [] => ("" :: acc).reverse
      | _ => resolveSegs acc rest
    else if s = ".." then
      let acc' : List String :=
        match acc with
        | a :: as_ => if a ≠ "" then as_ else acc
        | [] => acc
      match rest with
      | [] => ("" :: acc').reverse
      | _ => resolveSegs acc' rest
    else resolveSegs (s :: acc) rest

/-- Dot-segment removal on a path string. -/
def removeDotSegs (p : String) : String :=
  strJoin "/" (resolveSegs [] (strSplitChar '/' p))

/-- Reassemble scheme, netloc, path and query (the `urlunparse` cases the
source exercises; empty components are omitted as in Python). -/
def urlunparse4 (scheme netloc path query : String) : String :=
  (if scheme ≠ "" then scheme ++ ":" else "") ++
  (if netloc ≠ "" then "//" ++ netloc else "") ++
  path ++
  (if query ≠ "" then "?" ++ query else "")

/-- Merge a relative path into a base path (RFC 3986 merge, as performed
by `urljoin`). -/
def mergePaths (bpath rpath : String) : String :=
  match (bpath.data.reverse.span (fun c => c ≠ '/')).2 with
  | [] => rpath
  | dirRev => (⟨dirRev.reverse⟩ : String) ++ rpath

/-- Embedding of `urllib.parse.urljoin` for the absolute http(s) bases the
crawler passes it. -/
def urljoin (base url : String) : String :=
  if base = "" then url
  else if url = "" then base
  else
    let b := urlparse base
    let r := urlparse url
    let scheme := if r.scheme = "" then b.scheme else r.scheme
    if scheme ≠ b.scheme then url
    else if urlHasAuthority url then urlunparse4 scheme r.netloc r.path r.query
    else if r.path = "" then
      urlunparse4 scheme b.netloc b.path (if r.query = "" then b.query else r.query)
    else if pyStartsWith r.path "/" then
      urlunparse4 scheme b.netloc (removeDotSegs r.path) r.query
    else
      urlunparse4 scheme b.netloc (removeDotSegs (mergePaths b.path r.path)) r.query

/-- Hexadecimal digit value. -/
def hexVal (c : Char) : Option Nat :=
  if c.isDigit then some (c.toNat - 48)
  else if 'a' ≤ c ∧ c ≤ 'f' then some (c.toNat - 87)
  else if 'A' ≤ c ∧ c ≤ 'F' then some (c.toNat - 55)
  else none

/-- Embedding of `urllib.parse.unquote_plus` (ASCII percent-escapes). -/
def unquotePlusAux : List Char → List Char
  | [] => []
  | '+' :: cs => ' ' :: unquotePlusAux cs
  | '%' :: c1 :: c2 :: cs =>
    match hexVal c1, hexVal c2 with
    | some h1, some h2 => Char.ofNat (16 * h1 + h2) :: unquotePlusAux cs
    | _, _ => '%' :: unquotePlusAux (c1 :: c2 :: cs)
  | c :: cs => c :: unquotePlusAux cs

/-- Embedding of `urllib.parse.unquote_plus` on strings. -/
def unquotePlus (s : String) : String := ⟨unquotePlusAux s.data⟩

/-- Characters `urllib.parse.quote_plus` leaves unescaped. -/
def isQuoteSafe (c : Char) : Bool := c.isAlpha || c.isDigit || c = '_' || c = '.' || c = '-' || c = '~'

/-- Uppercase hexadecimal digit. -/
def hexDigitU (n : Nat) : Char := if n < 10 then Char.ofNat (48 + n) else Char.ofNat (55 + n)

/-- Embedding of `urllib.parse.quote_plus` (ASCII range). -/
def quotePlus (s : String) : String :=
  ⟨s.data.foldr (fun c acc =>
    if isQuoteSafe c then c :: acc
    else if c = ' ' then '+' :: acc
    else '%' :: hexDigitU (c.toNat / 16 % 16) :: hexDigitU (c.toNat % 16) :: acc) []⟩

/-- Append a value under a key of a multi-dict, preserving first-occurrence
key order (the dict `parse_qs` builds). -/
def qsInsert (d : List (String × List String)) (k v : String) : List (String × List String) :=
  if d.any (fun p => p.1 = k) then
    d.map (fun p => if p.1 = k then (p.1, p.2 ++ [v]) else p)
  else d ++ [(k, [v])]

/-- Embedding of `urllib.parse.parse_qs` (blank values skipped, as with
`keep_blank_values=False`). -/
def parse_qs (q : String) : List (String × List String) :=
  (strSplitChar '&' q).foldl (fun d part =>
    match part.data.span (fun c => c ≠ '=') with
    | (k, rest) =>
      match rest with
      | '=' :: v =>
        if v = [] then d
        else qsInsert d (unquotePlus (⟨k⟩ : String)) (unquotePlus (⟨v⟩ : String))
      | _ => d) []

/-- Embedding of `urllib.parse.urlencode(query, doseq=True)`. -/
def urlencodeQs (d : List (String × List String)) : String :=
  strJoin "&"
    ((d.map (fun p => p.2.map (fun v => quotePlus p.1 ++ "=" ++ quotePlus v))).flatten)

/-- Quote characters of the href patterns (`["\']`). -/
def isQuoteChar (c : Char) : Bool := c = '"' || c = '\''

/-- Digits of a page number converted with `int(...)`. -/
def natOfDigits (ds : List Char) : Nat :=
  ds.foldl (fun n c => 10 * n + (c.toNat - 48)) 0

/-- Match `=(\d+)` at the head of the input. -/
def eqDigits (l : List Char) : Option Nat :=
  match l with
  | '=' :: r =>
    match r.span Char.isDigit with
    | (ds, _) => if ds.isEmpty then none else some (natOfDigits ds)
  | _ => none

/-- Try a list of optional-piece alternatives (in backtracking order) each
followed by `=(\d+)`. -/
def altEqDigits : List (List Char) → List Char → Option Nat
  | [], _ => none
  | a :: as_, l =>
    match matchLitCI a l with
    | some r =>
      match eqDigits r with
      | some n => some n
      | none => altEqDigits as_ l
    | none => altEqDigits as_ l

/-- Parameter matcher `[?&]page[_]?(?:no)?=(\d+)` (case-insensitive) of the
first href pattern; the greedy optional pieces yield the alternative order
`_no`, `_`, `no`, empty. -/
def pmPage (l : List Char) : Option Nat :=
  match l with
  | c :: r =>
    if c = '?' ∨ c = '&' then
      match matchLitCI (String.data "page") r with
      | some r1 => altEqDigits [String.data "_no", String.data "_", String.data "no", []] r1
      | none => none
    else none
  | [] => none

/-- Parameter matcher `[?&]p=(\d+)` of the second href pattern. -/
def pmP (l : List Char) : Option Nat :=
  match l with
  | c :: r =>
    if c = '?' ∨ c = '&' then
      match matchLitCI (String.data "p") r with
      | some r1 => eqDigits r1
      | none => none
    else none
  | [] => none

/-- Parameter matcher `[?&]const_page=(\d+)` of the third href pattern. -/
def pmConstPage (l : List Char) : Option Nat :=
  match l with
  | c :: r =>
    if c = '?' ∨ c = '&' then
      match matchLitCI (String.data "const_page") r with
      | some r1 => eqDigits r1
      | none => none
    else none
  | [] => none

/-- Rightmost successful parameter match inside an href value (the greedy
leading `[^"\']*` of the patterns backtracks from the right). -/
def rightmostParam (pm : List Char → Option Nat) : List Char → Option Nat → Option Nat
  | [], best => best
  | l@(_ :: rest), best =>
    match pm l with
    | some n => rightmostParam pm rest (some n)
    | none => rightmostParam pm rest best

/-- Attempt of an href pattern
`href=["\']([^"\']*PARAM[^"\']*)["\']` (case-insensitive) at the head of
the input: the group is the whole quoted value, the page number comes from
the rightmost parameter match inside it. -/
def hrefAttempt (pm : List Char → Option Nat) (l : List Char) :
    Option ((List Char × Nat) × List Char) :=
  match matchLitCI (String.data "href=") l with
  | none => none
  | some r0 =>
    match r0 with
    | q :: r1 =>
      if isQuoteChar q then
        match r1.span (fun c => !(isQuoteChar c)) with
        | (content, r2) =>
          match r2 with
          | q2 :: rest =>
            if isQuoteChar q2 then
              match rightmostParam pm content none with
              | some n => some ((content, n), rest)
              | none => none
            else none
          | [] => none
      else none
    | [] => none

/-- Scan for all matches of one href pattern (leftmost, non-overlapping). -/
def hrefScan (pm : List Char → Option Nat) : Nat → List Char → List (List Char × Nat)
  | 0, _ => []
  | _ + 1, [] => []
  | fuel + 1, l@(_ :: rest) =>
    match hrefAttempt pm l with
    | some (m, rest') => m :: hrefScan pm fuel rest'
    | none => hrefScan pm fuel rest

/-- All `(href, page_num)` matches of one href pattern over a document. -/
def hrefMatches (pm : List Char → Option Nat) (html : String) : List (String × Nat) :=
  (hrefScan pm (html.data.length + 1) html.data).map (fun m => ((⟨m.1⟩ : String), m.2))

/-- Insert into the `page_urls` dict: overwrite an existing key in place,
otherwise append (Python dict insertion-order semantics). -/
def dictInsert (d : List (Nat × String)) (k : Nat) (v : String) : List (Nat × String) :=
  if d.any (fun p => p.1 = k) then d.map (fun p => if p.1 = k then (p.1, v) else p)
  else d ++ [(k, v)]

/-- Lookup in the `page_urls` dict. -/
def dictGet (d : List (Nat × String)) (k : Nat) : Option String :=
  (d.find? (fun p => p.1 = k)).map (fun p => p.2)

/-- Largest key of the `page_urls` dict (`max(page_urls.keys())`). -/
def dictMaxKey (d : List (Nat × String)) : Nat :=
  d.foldl (fun m p => max m p.1) 0

/-- The `page_urls` mapping built by `_detect_url_pagination`: all three
href patterns in order, hrefs entity-decoded and resolved against the base
URL. -/
def pageUrlsDict (html base_url : String) : List (Nat × String) :=
  ((hrefMatches pmPage html) ++ (hrefMatches pmP html) ++ (hrefMatches pmConstPage html)).foldl
    (fun d m => dictInsert d m.2 (urljoin base_url (pyReplace m.1 "&amp;" "&"))) []

/-- URL synthesized for a page number missing from the dict: the sample
URL's query with the first present page-number key replaced. -/
def synthUrl (parsed : UrlParts) (page : Nat) : String :=
  let query := parse_qs parsed.query
  let query' : List (String × List String) :=
    match [ "page", "page_no", "p", "const_page" ].find? (fun k => query.any (fun p => p.1 = k)) with
    | some k => query.map (fun p => if p.1 = k then (p.1, [toString page]) else p)
    | none => query
  parsed.scheme ++ "://" ++ parsed.netloc ++ parsed.path ++ "?" ++ urlencodeQs query'

/-- Embedding of `StaffDirectoryCrawler._detect_url_pagination`. -/
def detect_url_pagination (html base_url : String) : Option (List String) :=
  match pageUrlsDict html base_url with
  | [] => none
  | first :: restD =>
    let d := first :: restD
    let max_page := dictMaxKey d
    if max_page ≤ 1 then none
    else
      let sample_url :=
        match dictGet d 2 with
        | some u => if u = "" then first.2 else u
        | none => first.2
      let parsed := urlparse sample_url
      some ((List.range max_page).map (fun i =>
        match dictGet d (i + 1) with
        | some u => u
        | none => synthUrl parsed (i + 1)))

/-- Configuration dataclass `PaginationConfig` (defaults from the source;
the selector list is treated as opaque). -/
structure PaginationConfig where
  next_button_selector : String := "[aria-label=\x27Next Page\x27], li.next a"
  max_pages : Nat := 10
  wait_timeout : Nat := 5000
  content_selector : String := "body"
deriving Repr

/-- URL list the URL-pagination branch of `extract_with_pagination` hands
to `extract_many`: the detected list truncated to `config.max_pages`. -/
def urlPathUrls (html base_url : String) (config : PaginationConfig) : Option (List String) :=
  (detect_url_pagination html base_url).map (fun l => l.take config.max_pages)

/-- Outcome of one extraction task of `extract_many`
(`asyncio.gather(..., return_exceptions=True)`): a raised exception or a
member list. -/
def gatherResultMembers : Except String (List StaffMember) → List StaffMember
  | .error _ => []
  | .ok ms => ms

/-- Embedding of `StaffDirectoryCrawler.extract_many` over the per-URL
task outcomes: exceptions are reported and skipped, successes are
concatenated in input order. -/
def extract_many (results : List (Except String (List StaffMember))) : List StaffMember :=
  results.foldl (fun all_members r =>
    match r with
    | .error _ => all_members
    | .ok ms => all_members ++ ms) []

/-- Outcome of one page step of the interactive pagination loop: a
fetch/interaction failure (`result.success` false or a raised exception)
or the member list extracted from the new page. -/
inductive PageStep where
  | fail
  | ok (members : List StaffMember)
deriving DecidableEq, Repr

/-- Emails present in a member list: the comprehension
`\x7bm.email for m in ms if m.email\x7d`, whose truthiness guard drops both
absent and empty-string emails. -/
def pageEmails (ms : List StaffMember) : List String :=
  ms.filterMap (fun m =>
    match m.email with
    | some e => if e = "" then none else some e
    | none => none)

/-- Embedding of the `while page_num < config.max_pages` loop of
`extract_with_pagination` (the JS/interactive branch): stop on a failed
step, an empty page, or a non-empty email set already contained in the
accumulated emails; otherwise append and continue. -/
def paginationLoop (maxPages : Nat) : Nat → List PageStep → List StaffMember → List StaffMember
  | _, [], acc => acc
  | pageNum, step :: rest, acc =>
    if pageNum < maxPages then
      match step with
      | .fail => acc
      | .ok members =>
        match members with
        | [] => acc
        | _ :: _ =>
          if pageEmails members ≠ [] ∧ ∀ e ∈ pageEmails members, e ∈ pageEmails acc then acc
          else paginationLoop maxPages (pageNum + 1) rest (acc ++ members)
    else acc

/-- Interactive branch of `extract_with_pagination` over a simulated
session: the first page's members are extracted before the loop starts at
`page_num = 1`. -/
def extract_with_pagination_interactive (maxPages : Nat) (firstPage : List StaffMember)
    (steps : List PageStep) : List StaffMember :=
  paginationLoop maxPages 1 steps firstPage

/-- JSON values as produced by `json.loads` (numbers kept as lexemes:
the source never inspects numeric values). -/
inductive Json where
  | null
  | bool (b : Bool)
  | num (lexeme : String)
  | str (s : String)
  | arr (items : List Json)
  | obj (fields : List (String × Json))
deriving Repr, Inhabited

/-- JSON whitespace. -/
def isJsonWs (c : Char) : Bool := c = ' ' || c = '\t' || c = '\n' || c = '\x0d'

/-- String body parser (after the opening quote), with the escapes
`json.loads` accepts; raw control characters are rejected (strict mode). -/
def parseStringRest : List Char → List Char → Option (String × List Char)
  | acc, '"' :: r => some ((⟨acc.reverse⟩ : String), r)
  | acc, '\\' :: e :: r =>
    match e with
    | '"' => parseStringRest ('"' :: acc) r
    | '\\' => parseStringRest ('\\' :: acc) r
    | '/' => parseStringRest ('/' :: acc) r
    | 'b' => parseStringRest ('\x08' :: acc) r
    | 'f' => parseStringRest ('\x0c' :: acc) r
    | 'n' => parseStringRest ('\n' :: acc) r
    | 'r' => parseStringRest ('\x0d' :: acc) r
    | 't' => parseStringRest ('\t' :: acc) r
    | 'u' =>
      match r with
      | h1 :: h2 :: h3 :: h4 :: r2 =>
        match hexVal h1, hexVal h2, hexVal h3, hexVal h4 with
        | some v1, some v2, some v3, some v4 =>
          parseStringRest (Char.ofNat (4096 * v1 + 256 * v2 + 16 * v3 + v4) :: acc) r2
        | _, _, _, _ => none
      | _ => none
    | _ => none
  | acc, c :: r => if c.toNat < 32 then none else parseStringRest (c :: acc) r
  | _, [] => none

/-- Number lexeme parser (`-? (0 | [1-9][0-9]*) frac? exp?`). -/
def parseNumLexeme (l : List Char) : Option (List Char × List Char) :=
  let intPart : List Char → Option (List Char × List Char) := fun l1 =>
    match l1 with
    | '0' :: r => some ([ '0' ], r)
    | c :: r =>
      if c.isDigit then
        match r.span Char.isDigit with
        | (ds, r2) => some (c :: ds, r2)
      else none
    | [] => none
  let (signChars, l2) : List Char × List Char :=
    match l with
    | '-' :: r => ([ '-' ], r)
    | _ => ([], l)
  match intPart l2 with
  | none => none
  | some (ip, l3) =>
    let (fracChars, l4) : List Char × List Char :=
      match l3 with
      | '.' :: r =>
        match r.span Char.isDigit with
        | (ds, r2) => if ds.isEmpty then ([], l3) else ('.' :: ds, r2)
      | _ => ([], l3)
    if fracChars.isEmpty && (match l3 with | '.' :: _ => true | _ => false) then none
    else
      let (expChars, l5) : List Char × List Char :=
        match l4 with
        | c :: r =>
          if c = 'e' ∨ c = 'E' then
            match r with
            | s :: r2 =>
              if s = '+' ∨ s = '-' then
                match r2.span Char.isDigit with
                | (ds, r3) => if ds.isEmpty then ([], l4) else (c :: s :: ds, r3)
              else
                match r.span Char.isDigit with
                | (ds, r3) => if ds.isEmpty then ([], l4) else (c :: ds, r3)
            | [] => ([], l4)
          else ([], l4)
        | [] => ([], l4)
      some (signChars ++ ip ++ fracChars ++ expChars, l5)

mutual

/-- Value parser of the `json.loads` embedding (fueled). -/
def parseJsonValue : Nat → List Char → Option (Json × List Char)
  | 0, _ => none
  | fuel + 1, l =>
    match l.dropWhile isJsonWs with
    | [] => none
    | 'n' :: r => (matchLit (String.data "ull") r).map (fun rest => (Json.null, rest))
    | 't' :: r => (matchLit (String.data "rue") r).map (fun rest => (Json.bool true, rest))
    | 'f' :: r => (matchLit (String.data "alse") r).map (fun rest => (Json.bool false, rest))
    | '"' :: r => (parseStringRest [] r).map (fun p => (Json.str p.1, p.2))
    | '[' :: r =>
      match r.dropWhile isJsonWs with
      | ']' :: rest => some (Json.arr [], rest)
      | _ => parseJsonItems fuel r []
    | '{' :: r =>
      match r.dropWhile isJsonWs with
      | '}' :: rest => some (Json.obj [], rest)
      | _ => parseJsonFields fuel r []
    | c :: _ =>
      if c = '-' ∨ c.isDigit then
        (parseNumLexeme (l.dropWhile isJsonWs)).map (fun p => (Json.num (⟨p.1⟩ : String), p.2))
      else none

/-- Array items parser (after `[`, at least one item). -/
def parseJsonItems : Nat → List Char → List Json → Option (Json × List Char)
  | 0, _, _ => none
  | fuel + 1, l, acc =>
    match parseJsonValue fuel l with
    | none => none
    | some (v, rest) =>
      match rest.dropWhile isJsonWs with
      | ',' :: r2 => parseJsonItems fuel r2 (v :: acc)
      | ']' :: r2 => some (Json.arr (v :: acc).reverse, r2)
      | _ => none

/-- Object fields parser (after `\x7b`, at least one field); duplicate keys
overwrite in place as in a Python dict. -/
def parseJsonFields : Nat → List Char → List (String × Json) → Option (Json × List Char)
  | 0, _, _ => none
  | fuel + 1, l, acc =>
    match l.dropWhile isJsonWs with
    | '"' :: r =>
      match parseStringRest [] r with
      | none => none
      | some (k, r1) =>
        match r1.dropWhile isJsonWs with
        | ':' :: r2 =>
          match parseJsonValue fuel r2 with
          | none => none
          | some (v, r3) =>
            let acc' :=
              if acc.any (fun p => p.1 = k) then
                acc.map (fun p => if p.1 = k then (p.1, v) else p)
              else acc ++ [(k, v)]
            match r3.dropWhile isJsonWs with
            | ',' :: r4 => parseJsonFields fuel r4 acc'
            | '}' :: r4 => some (Json.obj acc', r4)
            | _ => none
        | _ => none
    | _ => none

end

/-- Embedding of `json.loads`: parse one value and require only
whitespace after it. -/
def json_loads (s : String) : Option Json :=
  match parseJsonValue (2 * s.data.length + 2) s.data with
  | some (j, rest) => if rest.dropWhile isJsonWs = [] then some j else none
  | none => none

/-- Lookup in a parsed JSON object. -/
def objGet (fields : List (String × Json)) (k : String) : Option Json :=
  (fields.find? (fun p => p.1 = k)).map (fun p => p.2)

/-- Embedding of `StaffMember(**member)` (pydantic validation): `member`
must be a mapping, `name` a present string, `role`/`email` absent, null or
strings. -/
def staffMemberOfJson : Json → Except String StaffMember
  | .obj fields =>
    match objGet fields "name" with
    | some (.str n) =>
      match (match objGet fields "role" with
             | none => Except.ok (none : Option String)
             | some .null => Except.ok none
             | some (.str r) => Except.ok (some r)
             | some _ => Except.error "ValidationError: role") with
      | .error e => .error e
      | .ok role =>
        match (match objGet fields "email" with
               | none => Except.ok (none : Option String)
               | some .null => Except.ok none
               | some (.str e) => Except.ok (some e)
               | some _ => Except.error "ValidationError: email") with
        | .error e => .error e
        | .ok email => .ok ⟨n, role, email⟩
    | some _ => .error "ValidationError: name"
    | none => .error "ValidationError: name missing"
  | _ => .error "TypeError: member is not a mapping"

/-- The `members_data` selection of the three accepted response shapes:
a list headed by a mapping with `staff_members`, a bare such mapping, or a
flat list; anything else yields the empty selection, and a
`staff_members` value that is not a list fails when iterated. -/
def membersDataOf : Json → Except String (List Json)
  | .arr items =>
    match items with
    | .obj fields :: _ =>
      match objGet fields "staff_members" with
      | some (.arr l) => .ok l
      | some _ => .error "TypeError: staff_members is not a list of mappings"
      | none => .ok items
    | _ => .ok items
  | .obj fields =>
    match objGet fields "staff_members" with
    | some (.arr l) => .ok l
    | some _ => .error "TypeError: staff_members is not a list of mappings"
    | none => .ok []
  | _ => .ok []

/-- Normalization of a parsed response into StaffMember records
(the list comprehension `[StaffMember(**m) for m in members_data]`). -/
def parseMembers (data : Json) : Except String (List StaffMember) :=
  match membersDataOf data with
  | .error e => .error e
  | .ok l => l.mapM staffMemberOfJson

/-- Semantic-response handling of the single-page `extract` path: empty
content short-circuits to no members, a JSON decode failure raises
(`RuntimeError`), member validation failures propagate. -/
def extractParseSemantic (extracted_content : Option String) : Except String (List StaffMember) :=
  match extracted_content with
  | none => .ok []
  | some s =>
    if s = "" then .ok []
    else
      match json_loads s with
      | none => .error "RuntimeError: Error al parsear respuesta JSON"
      | some data => parseMembers data

/-- Embedding of `StaffDirectoryCrawler._parse_extracted_content` (the
pagination-step path): a JSON decode failure yields the empty list
(logged, not raised); member validation failures still propagate. -/
def parse_extracted_content (extracted_content : Option String) : Except String (List StaffMember) :=
  match extracted_content with
  | none => .ok []
  | some s =>
    if s = "" then .ok []
    else
      match json_loads s with
      | none => .ok []
      | some data => parseMembers data

/-- Markup with 20 distinct embedded email addresses. -/
def embHtml : String :=
  strJoin " "
    ((List.range 20).map (fun i => "u" ++ toString i ++ "@x.co"))

/-- Cleaned text with 2 distinct email addresses. -/
def mdTwo : String := "a@b.co c@d.co"

/-- Cleaned text with 8 distinct email addresses. -/
def mdEight : String :=
  strJoin " "
    ((List.range 8).map (fun i => "v" ++ toString i ++ "@y.co"))

/-- Markup with 3 distinct email addresses. -/
def htmlThree : String := "a@b.co c@d.co e@f.co"

/-- Cleaned text with 1 email address. -/
def mdOne : String := "a@b.co"

/-- Plain text without email addresses. -/
def plainText : String := "no addresses in this page"

/-- Markup carrying the same email in an accessibility label and in a
mailto link. -/
def dupRuleHtml : String :=
  "<a aria-label=\"Send message to Victoria Blair at VEBlair@bcps.org\" href=\"mailto:VEBlair@bcps.org\">Victoria Blair</a>"

/-- Markup whose accessibility label names only an honorific. -/
def ariaDrHtml : String := "<div aria-label=\"Send message to Dr. at drx@school.org\"></div>"

/-- Markup with a generic-mailbox mailto link. -/
def denyHtml : String := "<p>Contact: <a href=\"mailto:info@school.org\">John Smith</a>, Principal</p>"

/-- Markup with an accepted honorific name in a mailto link. -/
def drJaneHtml : String := "<a href=\"mailto:jane.doe@dist.k12.us\">Dr. Jane Lee</a>, Science Teacher"

/-- Markup with a mailto link whose visible name is a bare honorific. -/
def mailtoDrHtml : String := "<a href=\"mailto:jane.doe@dist.k12.us\">Dr.</a>, Science Teacher"

/-- Markup where a mailto match with a too-short name precedes an
embedded-JSON occurrence of the same email with a valid name. -/
def poisonHtml : String :=
  "<a href=\"mailto:jd@school.k12.us\">D</a> <script>\x7b\"email\":\"jd@school.k12.us\",\"name\":\"Jane Doe\"\x7d</script>"

/-- First-page markup with three numbered page links. -/
def threePagesHtml : String :=
  "<a href=\"?page=1\">1</a><a href=\"?page=2\">2</a><a href=\"?page=3\">3</a>"

/-- Base URL of the pagination examples. -/
def exBase : String := "http://ex.com/staff"

/-- Staff members of the simulated pagination sessions. -/
def mAlice : StaffMember := ⟨ "Alice Jones", none, some "alice@x.org" ⟩

/-- Second member of the simulated first page. -/
def mBob : StaffMember := ⟨ "Bob Reed", none, some "bob@x.org" ⟩

/-- Member found on the simulated second page. -/
def mCarol : StaffMember := ⟨ "Carol Diaz", none, some "carol@x.org" ⟩

/-- Member of a page that would only be reached after termination. -/
def mDave : StaffMember := ⟨ "Dave Poe", none, some "dave@x.org" ⟩

/-- A well-formed semantic-extractor response. -/
def goodResponse : String :=
  "\x7b\"staff_members\": [\x7b\"name\": \"Jane Doe\", \"role\": \"Teacher\", \"email\": \"jd@x.org\"\x7d]\x7d"

/-- A response that is not valid JSON. -/
def badResponse : String := "Sorry, I could not extract staff members."

/-- Per-URL outcomes of a three-URL batch whose second fetch fails. -/
def batchResults : List (Except String (List StaffMember)) :=
  [ Except.ok [ mAlice ], Except.error "Error al crawlear", Except.ok [ mBob, mCarol ] ]

theorem ariaPass_spec (ms : List (String × String)) (seen : List String) :
    ((ariaPass ms seen).1.map (fun m => m.email)).Nodup ∧
    (∀ m ∈ (ariaPass ms seen).1, ∃ e, m.email = some e ∧ e ∉ seen ∧ e ∈ (ariaPass ms seen).2) ∧
    (∀ x ∈ seen, x ∈ (ariaPass ms seen).2) := by
  induction ms generalizing seen with
  | nil => simp [ariaPass]
  | cons hd tl ih =>
    obtain ⟨name, email⟩ := hd
    by_cases h : normEmail email ∉ seen ∧ 2 ≤ (pyStrip name).length
    · simp only [ariaPass, if_pos h]
      obtain ⟨ih1, ih2, ih3⟩ := ih (normEmail email :: seen)
      refine ⟨?_, ?_, ?_⟩
      · simp only [List.map_cons, List.nodup_cons]
        refine ⟨?_, ih1⟩
        intro hc
        rw [List.mem_map] at hc
        obtain ⟨m, hm, hme⟩ := hc
        obtain ⟨e, he1, he2, _⟩ := ih2 m hm
        rw [he1] at hme
        injection hme with hme
        exact he2 (by simp [hme])
      · intro m hm
        rcases List.mem_cons.mp hm with h1 | h1
        · subst h1
          exact ⟨normEmail email, rfl, h.1, ih3 _ (by simp)⟩
        · obtain ⟨e, he1, he2, he3⟩ := ih2 m h1
          exact ⟨e, he1, fun hc => he2 (List.mem_cons_of_mem _ hc), he3⟩
      · intro x hx
        exact ih3 x (List.mem_cons_of_mem _ hx)
    · simp only [ariaPass, if_neg h]
      exact ih seen

theorem mailtoPass_spec (ms : List (String × String × Option String)) (seen : List String) :
    ((mailtoPass ms seen).1.map (fun m => m.email)).Nodup ∧
    (∀ m ∈ (mailtoPass ms seen).1, ∃ e, m.email = some e ∧ e ∉ seen ∧ e ∈ (mailtoPass ms seen).2 ∧
        (∀ p ∈ genericPatterns, pyStartsWith e p = false) ∧
        2 ≤ (pyStrip (stripHonorific m.name)).length) ∧
    (∀ x ∈ seen, x ∈ (mailtoPass ms seen).2) := by
  induction ms generalizing seen with
  | nil => simp [mailtoPass]
  | cons hd tl ih =>
    obtain ⟨email, name, role⟩ := hd
    simp only [mailtoPass]
    split_ifs with h1 h2 h3 h4
    · exact ih seen
    · exact ih seen
    · exact ih seen
    · obtain ⟨ih1, ih2, ih3⟩ := ih (normEmail email :: seen)
      refine ⟨ih1, ?_, ?_⟩
      · intro m hm
        obtain ⟨e, he1, he2, he3, he4, he5⟩ := ih2 m hm
        exact ⟨e, he1, fun hc => he2 (List.mem_cons_of_mem _ hc), he3, he4, he5⟩
      · intro x hx
        exact ih3 x (List.mem_cons_of_mem _ hx)
    · obtain ⟨ih1, ih2, ih3⟩ := ih (normEmail email :: seen)
      refine ⟨?_, ?_, ?_⟩
      · simp only [List.map_cons, List.nodup_cons]
        refine ⟨?_, ih1⟩
        intro hc
        rw [List.mem_map] at hc
        obtain ⟨m, hm, hme⟩ := hc
        obtain ⟨e, he1, he2, _⟩ := ih2 m hm
        rw [he1] at hme
        injection hme with hme
        exact he2 (by simp [hme])
      · intro m hm
        rcases List.mem_cons.mp hm with hme | hme
        · subst hme
          refine ⟨normEmail email, rfl, h3, ih3 _ (by simp), ?_, ?_⟩
          · intro p hp
            by_contra hcp
            exact h1 (List.any_eq_true.mpr ⟨p, hp, by
              cases hsw : pyStartsWith (normEmail email) p with
              | true => rfl
              | false => exact absurd hsw hcp⟩)
          · exact Nat.le_of_not_lt h4
        · obtain ⟨e, he1, he2, he3, he4, he5⟩ := ih2 m hme
          exact ⟨e, he1, fun hc => he2 (List.mem_cons_of_mem _ hc), he3, he4, he5⟩
      · intro x hx
        exact ih3 x (List.mem_cons_of_mem _ hx)

theorem jsonPass_spec (ms : List (String × String)) (seen : List String) :
    ((jsonPass ms seen).1.map (fun m => m.email)).Nodup ∧
    (∀ m ∈ (jsonPass ms seen).1, ∃ e raw, m.email = some e ∧ e ∉ seen ∧ e ∈ (jsonPass ms seen).2 ∧
        m.name = pyStrip raw ∧ 2 ≤ (pyStrip (stripHonorific raw)).length) ∧
    (∀ x ∈ seen, x ∈ (jsonPass ms seen).2) := by
  induction ms generalizing seen with
  | nil => simp [jsonPass]
  | cons hd tl ih =>
    obtain ⟨email, name⟩ := hd
    simp only [jsonPass]
    split_ifs with h1 h2
    · obtain ⟨ih1, ih2, ih3⟩ := ih (normEmail email :: seen)
      refine ⟨?_, ?_, ?_⟩
      · simp only [List.map_cons, List.nodup_cons]
        refine ⟨?_, ih1⟩
        intro hc
        rw [List.mem_map] at hc
        obtain ⟨m, hm, hme⟩ := hc
        obtain ⟨e, raw, he1, he2, _⟩ := ih2 m hm
        rw [he1] at hme
        injection hme with hme
        exact he2 (by simp [hme])
      · intro m hm
        rcases List.mem_cons.mp hm with hme | hme
        · subst hme
          exact ⟨normEmail email, name, rfl, h1.1, ih3 _ (by simp), rfl, h2⟩
        · obtain ⟨e, raw, he1, he2, he3, he4, he5⟩ := ih2 m hme
          exact ⟨e, raw, he1, fun hc => he2 (List.mem_cons_of_mem _ hc), he3, he4, he5⟩
      · intro x hx
        exact ih3 x (List.mem_cons_of_mem _ hx)
    · exact ih seen
    · exact ih seen

/-- Claim C5: for every markup input the records returned by one call of
the pattern extractor have pairwise-distinct emails (the shared
`seen_emails` set guarantees at most one record per distinct email across
the three rule passes), and markup carrying the same email in an
accessibility label and a mailto link yields exactly the one record
produced by the accessibility-label rule. -/
theorem c5_pattern_extractor_distinct_emails :
    (∀ html, ((extract_from_html_patterns html).map (fun m => m.email)).Nodup) ∧
    extract_from_html_patterns dupRuleHtml =
      [ ⟨ "Victoria Blair", none, some "veblair@bcps.org" ⟩ ] := by
  constructor
  · intro html
    have hshape : extract_from_html_patterns html =
        (ariaPass (ariaMatches html) []).1 ++
          (mailtoPass (mailtoMatches html) (ariaPass (ariaMatches html) []).2).1 ++
          (jsonPass (jsonMatches html)
            (mailtoPass (mailtoMatches html) (ariaPass (ariaMatches html) []).2).2).1 := rfl
    rw [hshape]
    obtain ⟨a1, a2, _⟩ := ariaPass_spec (ariaMatches html) []
    obtain ⟨b1, b2, b3⟩ := mailtoPass_spec (mailtoMatches html) (ariaPass (ariaMatches html) []).2
    obtain ⟨c1, c2, _⟩ := jsonPass_spec (jsonMatches html)
      (mailtoPass (mailtoMatches html) (ariaPass (ariaMatches html) []).2).2
    rw [List.map_append, List.map_append, List.nodup_append, List.nodup_append]
    refine ⟨⟨a1, b1, ?_⟩, c1, ?_⟩
    · intro o ho hob
      rw [List.mem_map] at ho hob
      obtain ⟨m, hm, hme⟩ := ho
      obtain ⟨m', hm', hme'⟩ := hob
      obtain ⟨e, he1, _, he3⟩ := a2 m hm
      obtain ⟨e', he1', he2', _⟩ := b2 m' hm'
      rw [← hme, he1] at hme'
      rw [he1'] at hme'
      injection hme' with heq
      exact he2' (heq ▸ he3)
    · intro o ho hob
      rw [List.mem_append] at ho
      rw [List.mem_map] at hob
      obtain ⟨m', hm', hme'⟩ := hob
      obtain ⟨e', _, he1', he2', _⟩ := c2 m' hm'
      have hinS1 : ∃ e, o = some e ∧
          e ∈ (mailtoPass (mailtoMatches html) (ariaPass (ariaMatches html) []).2).2 := by
        rcases ho with h0 | h0
        · rw [List.mem_map] at h0
          obtain ⟨m, hm, hme⟩ := h0
          obtain ⟨e, he1, _, he3⟩ := a2 m hm
          exact ⟨e, by rw [← hme, he1], b3 e he3⟩
        · rw [List.mem_map] at h0
          obtain ⟨m, hm, hme⟩ := h0
          obtain ⟨e, he1, _, he3, _⟩ := b2 m hm
          exact ⟨e, by rw [← hme, he1], he3⟩
      obtain ⟨e, hoe, heS1⟩ := hinS1
      rw [hoe, he1'] at hme'
      injection hme' with heq
      exact he2' (heq ▸ heS1)
  · decide

/-- Claim C1: the content classifier counts distinct email-like substrings
of the raw markup and the cleaned text and decides, in order: `embedded`
when `emails_html > 10` and `emails_html > 3 * emails_md`; else `visible`
when `emails_md > 5`; else the semantic fallback (tag `"llm"` in the code)
carrying `max(emails_html, emails_md)`; with the three sample count
combinations deciding as stated. -/
theorem c1_classifier_decision (html markdown : String) :
    ((emailsCount html > 10 ∧
        emailsCount html > 3 * (if markdown = "" then 0 else emailsCount markdown)) →
      analyze_content_type html markdown = ("embedded", emailsCount html)) ∧
    (¬(emailsCount html > 10 ∧
        emailsCount html > 3 * (if markdown = "" then 0 else emailsCount markdown)) →
      (if markdown = "" then 0 else emailsCount markdown) > 5 →
      analyze_content_type html markdown =
        ("visible", if markdown = "" then 0 else emailsCount markdown)) ∧
    (¬(emailsCount html > 10 ∧
        emailsCount html > 3 * (if markdown = "" then 0 else emailsCount markdown)) →
      ¬((if markdown = "" then 0 else emailsCount markdown) > 5) →
      analyze_content_type html markdown =
        ("llm", max (emailsCount html) (if markdown = "" then 0 else emailsCount markdown))) ∧
    (emailsCount html = 20 → (if markdown = "" then 0 else emailsCount markdown) = 2 →
      (analyze_content_type html markdown).1 = "embedded") ∧
    (emailsCount html = 0 → (if markdown = "" then 0 else emailsCount markdown) = 8 →
      (analyze_content_type html markdown).1 = "visible") ∧
    (emailsCount html = 3 → (if markdown = "" then 0 else emailsCount markdown) = 1 →
      (analyze_content_type html markdown).1 = "llm") := by
  simp only [analyze_content_type]
  generalize (if markdown = "" then 0 else emailsCount markdown) = em
  generalize emailsCount html = eh
  refine ⟨?_, ?_, ?_, ?_, ?_, ?_⟩ <;>
    first
      | (intro h
         split_ifs <;> first | rfl | omega)
      | (intro h h'
         split_ifs <;> first | rfl | omega)

/-- Witness for C1 at concrete pages with 20/2, 0/8 and 3/1 distinct
emails. -/
theorem c1_classifier_decision_witness :
    (analyze_content_type embHtml mdTwo).1 = "embedded" ∧
    (analyze_content_type plainText mdEight).1 = "visible" ∧
    (analyze_content_type htmlThree mdOne).1 = "llm" := by
  refine ⟨?_, ?_, ?_⟩
  · exact (c1_classifier_decision embHtml mdTwo).2.2.2.1 (by decide) (by decide)
  · exact (c1_classifier_decision plainText mdEight).2.2.2.2.1 (by decide) (by decide)
  · exact (c1_classifier_decision htmlThree mdOne).2.2.2.2.2 (by decide) (by decide)

/-- Claim C2: after each extraction step of the interactive pagination
loop, the run terminates without appending the page's records when the
page yields zero records or when its non-empty email set is contained in
the accumulated emails; in the two simulated sessions the run keeps only
page 1, respectively pages 1 and 2. -/
theorem c2_interactive_termination :
    (∀ maxPages pageNum acc rest members, pageNum < maxPages → members = [] →
      paginationLoop maxPages pageNum (PageStep.ok members :: rest) acc = acc) ∧
    (∀ maxPages pageNum acc rest members, pageNum < maxPages →
      pageEmails members ≠ [] → (∀ e ∈ pageEmails members, e ∈ pageEmails acc) →
      paginationLoop maxPages pageNum (PageStep.ok members :: rest) acc = acc) ∧
    extract_with_pagination_interactive 10 [ mAlice, mBob ]
        [ PageStep.ok [], PageStep.ok [ mCarol ] ] = [ mAlice, mBob ] ∧
    extract_with_pagination_interactive 10 [ mAlice, mBob ]
        [ PageStep.ok [ mCarol ], PageStep.ok [ mAlice ], PageStep.ok [ mDave ] ] =
      [ mAlice, mBob, mCarol ] := by
  refine ⟨?_, ?_, by decide, by decide⟩
  · intro maxPages pageNum acc rest members hlt hm
    subst hm
    simp [paginationLoop, hlt]
  · intro maxPages pageNum acc rest members hlt hne hsub
    cases members with
    | nil => simp [pageEmails] at hne
    | cons m ms =>
      simp only [paginationLoop, if_pos hlt]
      rw [if_pos ⟨hne, hsub⟩]

/-- Witness for C2: a zero-record page and a duplicate-email page both end
the loop at concrete inputs. -/
theorem c2_interactive_termination_witness :
    paginationLoop 10 1 [ PageStep.ok [] ] [ mAlice ] = [ mAlice ] ∧
    paginationLoop 10 2 [ PageStep.ok [ mAlice ] ] [ mAlice, mBob ] = [ mAlice, mBob ] := by
  constructor
  · exact c2_interactive_termination.1 10 1 [ mAlice ] [] [] (by decide) rfl
  · exact c2_interactive_termination.2.1 10 2 [ mAlice, mBob ] [] [ mAlice ]
      (by decide) (by decide) (by decide)

/-- Claim C3: the default maximum page count is 10; the URL-enumeration
branch truncates the generated URL list to `max_pages` before fan-out; and
the interactive loop stops at the page counter bound, consuming at most
`max_pages - page_num` further steps of any session. -/
theorem c3_max_pages_bound :
    ({} : PaginationConfig).max_pages = 10 ∧
    (∀ html base config urls, urlPathUrls html base config = some urls →
      urls.length ≤ config.max_pages) ∧
    (∀ maxPages pageNum steps acc, maxPages ≤ pageNum →
      paginationLoop maxPages pageNum steps acc = acc) ∧
    (∀ maxPages pageNum steps acc,
      paginationLoop maxPages pageNum steps acc =
        paginationLoop maxPages pageNum (steps.take (maxPages - pageNum)) acc) := by
  refine ⟨rfl, ?_, ?_, ?_⟩
  · intro html base config urls h
    simp only [urlPathUrls, Option.map_eq_some'] at h
    obtain ⟨l, _, hl⟩ := h
    rw [← hl, List.length_take]
    exact min_le_left _ _
  · intro maxPages pageNum steps acc h
    cases steps with
    | nil => rfl
    | cons s rest => simp [paginationLoop, Nat.not_lt.mpr h]
  · intro maxPages pageNum steps acc
    induction steps generalizing pageNum acc with
    | nil => rw [List.take_nil]
    | cons s rest ih =>
      by_cases h : pageNum < maxPages
      · have hsub : maxPages - pageNum = (maxPages - (pageNum + 1)) + 1 := by omega
        rw [hsub, List.take_succ_cons]
        cases s with
        | fail => simp [paginationLoop, if_pos h]
        | ok members =>
          cases members with
          | nil => simp [paginationLoop, if_pos h]
          | cons m ms =>
            simp only [paginationLoop, if_pos h]
            by_cases hdup : pageEmails (m :: ms) ≠ [] ∧
                ∀ e ∈ pageEmails (m :: ms), e ∈ pageEmails acc
            · rw [if_pos hdup, if_pos hdup]
            · rw [if_neg hdup, if_neg hdup]
              exact ih (pageNum + 1) (acc ++ (m :: ms))
      · have h0 : maxPages - pageNum = 0 := by omega
        rw [h0]
        simp [paginationLoop, h]

/-- Witness for C3: the truncation bound and the counter stop at concrete
inputs. -/
theorem c3_max_pages_bound_witness :
    (urlPathUrls threePagesHtml exBase {}).isSome ∧
    paginationLoop 3 3 [ PageStep.ok [ mAlice ] ] [ mBob ] = [ mBob ] := by
  constructor
  · decide
  · exact c3_max_pages_bound.2.2.1 3 3 [ PageStep.ok [ mAlice ] ] [ mBob ] (by decide)

theorem le_foldl_max (d : List (Nat × String)) (a : Nat) :
    a ≤ d.foldl (fun m p => max m p.1) a := by
  induction d generalizing a with
  | nil => exact Nat.le_refl a
  | cons hd tl ih => exact le_trans (Nat.le_max_left a hd.1) (ih (max a hd.1))

theorem mem_le_foldl_max (d : List (Nat × String)) (x : Nat × String) (hx : x ∈ d)
    (a : Nat) : x.1 ≤ d.foldl (fun m p => max m p.1) a := by
  induction d generalizing a with
  | nil => cases hx
  | cons hd tl ih =>
    rcases List.mem_cons.mp hx with h | h
    · subst h
      exact le_trans (Nat.le_max_right a x.1) (le_foldl_max tl _)
    · exact ih h (max a hd.1)

theorem mem_le_dictMaxKey (d : List (Nat × String)) (x : Nat × String) (hx : x ∈ d) :
    x.1 ≤ dictMaxKey d :=
  mem_le_foldl_max d x hx 0

theorem dictGet_key_le (d : List (Nat × String)) (p : Nat) (u : String)
    (h : dictGet d p = some u) : p ≤ dictMaxKey d := by
  unfold dictGet at h
  rw [Option.map_eq_some'] at h
  obtain ⟨pr, hfind, _⟩ := h
  have hmem := List.mem_of_find?_eq_some hfind
  have hpred := List.find?_some hfind
  rw [decide_eq_true_eq] at hpred
  exact hpred ▸ mem_le_dictMaxKey d pr hmem

/-- Claim C4: the URL pagination detector returns no plan when no href
pattern matches or the maximum discovered page number is at most 1, and
otherwise returns one URL per page 1..max in ascending page order, the
discovered page numbers resolved to their absolute URLs; with the
three-link example yielding exactly 3 absolute URLs. -/
theorem c4_url_pagination_detector :
    (∀ html base, pageUrlsDict html base = [] → detect_url_pagination html base = none) ∧
    (∀ html base, dictMaxKey (pageUrlsDict html base) ≤ 1 →
      detect_url_pagination html base = none) ∧
    (∀ html base urls, detect_url_pagination html base = some urls →
      2 ≤ dictMaxKey (pageUrlsDict html base) ∧
      urls.length = dictMaxKey (pageUrlsDict html base) ∧
      ∀ p u, 1 ≤ p → dictGet (pageUrlsDict html base) p = some u →
        urls[p - 1]? = some u) ∧
    detect_url_pagination threePagesHtml exBase =
      some [ "http://ex.com/staff?page=1", "http://ex.com/staff?page=2",
             "http://ex.com/staff?page=3" ] := by
  refine ⟨?_, ?_, ?_, by decide⟩
  · intro html base h
    unfold detect_url_pagination
    rw [h]
  · intro html base h
    unfold detect_url_pagination
    cases hd : pageUrlsDict html base with
    | nil => rfl
    | cons first restD =>
      rw [hd] at h
      dsimp only
      rw [if_pos h]
  · intro html base urls hdet
    unfold detect_url_pagination at hdet
    cases hd : pageUrlsDict html base with
    | nil => rw [hd] at hdet; cases hdet
    | cons first restD =>
      rw [hd] at hdet
      dsimp only at hdet
      by_cases hmax : dictMaxKey (first :: restD) ≤ 1
      · rw [if_pos hmax] at hdet; cases hdet
      · rw [if_neg hmax] at hdet
        rw [Option.some_inj] at hdet
        refine ⟨by omega, ?_, ?_⟩
        · rw [← hdet, List.length_map, List.length_range]
        · intro p u hp hget
          have hple := dictGet_key_le _ p u hget
          have hlt : p - 1 < dictMaxKey (first :: restD) := by omega
          rw [← hdet, List.getElem?_map, List.getElem?_range hlt]
          simp only [Option.map_some']
          have hp1 : p - 1 + 1 = p := by omega
          rw [hp1, hget]

/-- Witness for C4 at the three-link example and a link-free page. -/
theorem c4_url_pagination_detector_witness :
    2 ≤ dictMaxKey (pageUrlsDict threePagesHtml exBase) ∧
    (3 : Nat) = dictMaxKey (pageUrlsDict threePagesHtml exBase) ∧
    detect_url_pagination plainText exBase = none := by
  have h := c4_url_pagination_detector.2.2.1 threePagesHtml exBase
    [ "http://ex.com/staff?page=1", "http://ex.com/staff?page=2",
      "http://ex.com/staff?page=3" ] (by decide)
  exact ⟨h.1, h.2.1 ▸ rfl, c4_url_pagination_detector.1 plainText exBase (by decide)⟩

theorem extract_many_foldl_acc (results : List (Except String (List StaffMember)))
    (acc : List StaffMember) :
    results.foldl (fun all_members r =>
      match r with
      | .error _ => all_members
      | .ok ms => all_members ++ ms) acc = acc ++ extract_many results := by
  induction results generalizing acc with
  | nil => simp [extract_many]
  | cons r rest ih =>
    cases r with
    | error e =>
      show rest.foldl _ acc = acc ++ extract_many (Except.error e :: rest)
      rw [ih acc]
      congr 1
    | ok ms =>
      show rest.foldl _ (acc ++ ms) = acc ++ extract_many (Except.ok ms :: rest)
      rw [ih (acc ++ ms)]
      have : extract_many (Except.ok ms :: rest) = ms ++ extract_many rest := by
        show rest.foldl _ ([] ++ ms) = ms ++ extract_many rest
        rw [ih ([] ++ ms)]
        simp
      rw [this, List.append_assoc]

/-- Claim C6: the fan-out batch extractor isolates per-URL failures: a
failing URL is excluded without affecting its siblings, the merged result
is the concatenation of per-URL results in input order, an all-failure
batch yields the empty result, and the concrete three-URL batch with one
failing fetch keeps exactly the two successes in order. -/
theorem c6_fanout_isolation :
    (∀ results, (∀ r ∈ results, ∃ e, r = Except.error e) →
      extract_many results = ([] : List StaffMember)) ∧
    (∀ pre post e, extract_many (pre ++ Except.error e :: post) =
      extract_many (pre ++ post)) ∧
    (∀ rs1 rs2, extract_many (rs1 ++ rs2) = extract_many rs1 ++ extract_many rs2) ∧
    extract_many batchResults = [ mAlice, mBob, mCarol ] := by
  have happ : ∀ rs1 rs2, extract_many (rs1 ++ rs2) = extract_many rs1 ++ extract_many rs2 := by
    intro rs1 rs2
    show (rs1 ++ rs2).foldl _ [] = _
    rw [List.foldl_append, extract_many_foldl_acc rs2 (List.foldl _ [] rs1)]
    rfl
  refine ⟨?_, ?_, happ, by decide⟩
  · intro results h
    induction results with
    | nil => rfl
    | cons r rest ih =>
      obtain ⟨e, he⟩ := h r (List.mem_cons_self r rest)
      subst he
      show rest.foldl _ [] = []
      exact ih (fun r' hr' => h r' (List.mem_cons_of_mem _ hr'))
  · intro pre post e
    have h1 : pre ++ Except.error e :: post = pre ++ ([Except.error e] ++ post) := rfl
    rw [h1, happ, happ, happ]
    rfl

/-- Witness for C6: an all-failure batch at concrete inputs. -/
theorem c6_fanout_isolation_witness :
    extract_many [ Except.error "Error al crawlear a", Except.error "Error al crawlear b" ] =
      ([] : List StaffMember) := by
  apply c6_fanout_isolation.1
  intro r hr
  rcases List.mem_cons.mp hr with h | h
  · exact ⟨"Error al crawlear a", h⟩
  · rcases List.mem_cons.mp h with h' | h'
    · exact ⟨"Error al crawlear b", h'⟩
    · cases h'

/-- Claim C7: the semantic-response parse policy is asymmetric: a response
that is not valid JSON raises in the single-page extract path but yields
the empty list in the pagination-step path; when the response parses, both
paths normalize it identically, accepting the three response shapes
(mapping with `staff_members`, list headed by such a mapping, flat member
list). -/
theorem c7_parse_policy_asymmetry :
    (∀ s, s ≠ "" → json_loads s = none →
      extractParseSemantic (some s) =
        Except.error "RuntimeError: Error al parsear respuesta JSON" ∧
      parse_extracted_content (some s) = Except.ok []) ∧
    (∀ s j, json_loads s = some j →
      extractParseSemantic (some s) = parseMembers j ∧
      parse_extracted_content (some s) = parseMembers j) ∧
    (∀ fields l, objGet fields "staff_members" = some (Json.arr l) →
      parseMembers (Json.obj fields) = l.mapM staffMemberOfJson) ∧
    (∀ fields l rest, objGet fields "staff_members" = some (Json.arr l) →
      parseMembers (Json.arr (Json.obj fields :: rest)) = l.mapM staffMemberOfJson) ∧
    (∀ fields rest, objGet fields "staff_members" = none →
      parseMembers (Json.arr (Json.obj fields :: rest)) =
        (Json.obj fields :: rest).mapM staffMemberOfJson) := by
  refine ⟨?_, ?_, ?_, ?_, ?_⟩
  · intro s hne hn
    constructor
    · simp only [extractParseSemantic, if_neg hne, hn]
    · simp only [parse_extracted_content, if_neg hne, hn]
  · intro s j hj
    constructor
    · simp only [extractParseSemantic]
      by_cases hne : s = ""
      · rw [hne] at hj
        rw [show json_loads "" = none from rfl] at hj
        cases hj
      · simp only [if_neg hne, hj]
    · simp only [parse_extracted_content]
      by_cases hne : s = ""
      · rw [hne] at hj
        rw [show json_loads "" = none from rfl] at hj
        cases hj
      · simp only [if_neg hne, hj]
  · intro fields l h
    simp only [parseMembers, membersDataOf, h]
  · intro fields l rest h
    simp only [parseMembers, membersDataOf, h]
  · intro fields rest h
    simp only [parseMembers, membersDataOf, h]

/-- Witness for C7 at a concrete invalid response and a concrete
well-formed response. -/
theorem c7_parse_policy_asymmetry_witness :
    extractParseSemantic (some badResponse) =
      Except.error "RuntimeError: Error al parsear respuesta JSON" ∧
    parse_extracted_content (some badResponse) = Except.ok [] ∧
    extractParseSemantic (some goodResponse) =
      parseMembers (Json.obj [ ("staff_members", Json.arr
        [ Json.obj [ ("name", Json.str "Jane Doe"), ("role", Json.str "Teacher"),
            ("email", Json.str "jd@x.org") ] ]) ]) := by
  have h1 := c7_parse_policy_asymmetry.1 badResponse (by decide) rfl
  have h2 := (c7_parse_policy_asymmetry.2.1 goodResponse
    (Json.obj [ ("staff_members", Json.arr
      [ Json.obj [ ("name", Json.str "Jane Doe"), ("role", Json.str "Teacher"),
          ("email", Json.str "jd@x.org") ] ]) ]) rfl).1
  exact ⟨h1.1, h1.2, h2⟩

/-- Counterexample to C8: the accessibility-label rule accepts the name
"Dr." (raw length 3), although nothing remains after stripping the
honorific, so not every rule enforces the ≥2-after-stripping requirement. -/
theorem c8_counterexample :
    (extract_from_html_patterns ariaDrHtml).map (fun m => m.name) = [ "Dr." ] ∧
    (pyStrip (stripHonorific "Dr.")).length = 0 := by decide

/-- Claim C8 as amended: the mailto rule guarantees at least 2 characters
after honorific stripping on the produced name, the embedded-JSON rule
guarantees it on the raw matched name, while the accessibility-label rule
only requires raw length ≥ 2; "Dr. Jane Lee" is accepted by the mailto
rule and a bare "Dr." is rejected by it. -/
theorem c8_amended_honorific_validation :
    (∀ ms seen m, m ∈ (mailtoPass ms seen).1 →
      2 ≤ (pyStrip (stripHonorific m.name)).length) ∧
    (∀ ms seen m, m ∈ (jsonPass ms seen).1 →
      ∃ raw, m.name = pyStrip raw ∧ 2 ≤ (pyStrip (stripHonorific raw)).length) ∧
    (∀ ms seen m, m ∈ (ariaPass ms seen).1 → 2 ≤ m.name.length) ∧
    extract_from_html_patterns drJaneHtml =
      [ ⟨ "Dr. Jane Lee", some "Science Teacher", some "jane.doe@dist.k12.us" ⟩ ] ∧
    extract_from_html_patterns mailtoDrHtml = [] := by
  refine ⟨?_, ?_, ?_, by decide, by decide⟩
  · intro ms seen m hm
    obtain ⟨_, spec2, _⟩ := mailtoPass_spec ms seen
    obtain ⟨e, _, _, _, _, h5⟩ := spec2 m hm
    exact h5
  · intro ms seen m hm
    obtain ⟨_, spec2, _⟩ := jsonPass_spec ms seen
    obtain ⟨e, raw, _, _, _, h4, h5⟩ := spec2 m hm
    exact ⟨raw, h4, h5⟩
  · intro ms seen m hm
    induction ms generalizing seen with
    | nil => simp [ariaPass] at hm
    | cons hd tl ih =>
      obtain ⟨name, email⟩ := hd
      by_cases h : normEmail email ∉ seen ∧ 2 ≤ (pyStrip name).length
      · rw [show ariaPass ((name, email) :: tl) seen =
            ((⟨pyStrip name, none, some (normEmail email)⟩ : StaffMember) ::
              (ariaPass tl (normEmail email :: seen)).1,
              (ariaPass tl (normEmail email :: seen)).2)
            from by simp [ariaPass, h]] at hm
        rcases List.mem_cons.mp hm with hme | hme
        · subst hme
          exact h.2
        · exact ih (normEmail email :: seen) hme
      · rw [show ariaPass ((name, email) :: tl) seen = ariaPass tl seen
            from by simp [ariaPass, h]] at hm
        exact ih seen hm

/-- Witness for the amended C8: the mailto-rule guarantee applied at a
concrete match list producing "Dr. Jane Lee". -/
theorem c8_amended_honorific_validation_witness :
    2 ≤ (pyStrip (stripHonorific "Dr. Jane Lee")).length := by
  exact c8_amended_honorific_validation.1
    [ ("jane.doe@dist.k12.us", "Dr. Jane Lee", none) ] []
    ⟨ "Dr. Jane Lee", none, some "jane.doe@dist.k12.us" ⟩ (by decide)

/-- Claim C9: the mailto rule never produces a record whose email starts
with a generic-mailbox denylist entry, and a `mailto:info@school.org` link
yields no record. -/
theorem c9_mailto_denylist :
    (∀ ms seen m e, m ∈ (mailtoPass ms seen).1 → m.email = some e →
      ∀ p ∈ genericPatterns, pyStartsWith e p = false) ∧
    extract_from_html_patterns denyHtml = [] := by
  constructor
  · intro ms seen m e hm he p hp
    obtain ⟨_, spec2, _⟩ := mailtoPass_spec ms seen
    obtain ⟨e', he1', _, _, he4, _⟩ := spec2 m hm
    rw [he] at he1'
    injection he1' with heq
    exact heq ▸ he4 p hp
  · decide

/-- Witness for C9: the denylist guarantee applied at a concrete match
list producing one record. -/
theorem c9_mailto_denylist_witness :
    pyStartsWith "jane@x.org" "info@" = false := by
  exact c9_mailto_denylist.1 [ ("jane@x.org", "Jane Doe", none) ] []
    ⟨ "Jane Doe", none, some "jane@x.org" ⟩ "jane@x.org" (by decide) rfl "info@" (by decide)

/-- Claim C10: a mailto match that passes the dedup and denylist checks
but fails the name-length validation still adds its email to
`seen_emails`; the embedded-JSON rule then skips that email, so markup
with such a mailto match before an embedded-JSON occurrence of the same
email with a valid name yields no record for that email. -/
theorem c10_seen_email_poisoning :
    (∀ email name role rest seen,
      genericPatterns.any (fun p => pyStartsWith (normEmail email) p) = false →
      strHasChar name '@' = false →
      normEmail email ∉ seen →
      (pyStrip (stripHonorific (pyStrip name))).length < 2 →
      mailtoPass ((email, name, role) :: rest) seen =
        mailtoPass rest (normEmail email :: seen)) ∧
    (∀ email name rest seen, normEmail email ∈ seen →
      jsonPass ((email, name) :: rest) seen = jsonPass rest seen) ∧
    extract_from_html_patterns poisonHtml = [] := by
  refine ⟨?_, ?_, by decide⟩
  · intro email name role rest seen h1 h2 h3 h4
    simp only [mailtoPass]
    rw [if_neg (by simp [h1]), if_neg (by simp [h2]), if_neg h3, if_pos h4]
  · intro email name rest seen h
    simp only [jsonPass]
    rw [if_neg (fun hc => hc.1 h)]

/-- Witness for C10: the poisoning step and the embedded-JSON skip at
concrete inputs. -/
theorem c10_seen_email_poisoning_witness :
    mailtoPass [ ("jd@school.k12.us", "D", none) ] [] = ([], [ "jd@school.k12.us" ]) ∧
    jsonPass [ ("jd@school.k12.us", "Jane Doe") ] [ "jd@school.k12.us" ] =
      ([], [ "jd@school.k12.us" ]) := by
  constructor
  · rw [c10_seen_email_poisoning.1 "jd@school.k12.us" "D" none [] []
      (by decide) (by decide) (by decide) (by decide)]
    decide
  · rw [c10_seen_email_poisoning.2.1 "jd@school.k12.us" "Jane Doe" [] [ "jd@school.k12.us" ]
      (by decide)]
    decide
